import Mathlib

/-!
Verification of the PRAGATI PATH referral / earnings tracker (src/PRGPATH.py).

The Python program keeps four JSON-backed stores: `data` (users, the
referral tree and a registration counter), `tasks`, `withdrawals` and
`proof_status`.  Python dicts are modelled as association lists that keep
insertion order (new keys are appended at the end, exactly as CPython
dicts behave); Python ints are `Int`; fallible operations return
`Except String`; the statements the UI layer enforces before a handler
runs (menu filters such as "only pending proofs assigned to this coadmin
get an approve button") are modelled as guards of the corresponding
operation.  Unbounded `while` loops are modelled with explicit fuel where
`none` means the loop is still running after that many iterations.
-/

namespace PRGPath

/-- A user record, mirroring the dict created in `register_user`
(src/PRGPATH.py lines 190-199) and the bootstrap admin record. -/
structure User where
  name : String
  password : String
  ref_id : String
  ref_by : String
  task_income : Int
  affiliate_income : Int
  joined : String
  role : String
deriving Repr, DecidableEq

/-- `data["users"]`: an insertion-ordered dict from username to record. -/
abbrev Users := List (String × User)

/-- The `data` store: users, referral tree (`ref_id` → children) and the
registration counter. -/
structure Data where
  users : Users
  referrals : List (String × List String)
  count : Nat
deriving Repr, DecidableEq

/-- Dict lookup: the value at the first occurrence of key `k`. -/
def lookupD {α : Type} : List (String × α) → String → Option α
  | [], _ => none
  | p :: rest, k => if p.1 = k then some p.2 else lookupD rest k

/-- Python's `k in d` membership test on a dict. -/
def hasKey {α : Type} : List (String × α) → String → Bool
  | [], _ => false
  | p :: rest, k => if p.1 = k then true else hasKey rest k

/-- Python's `d[k] = f(d[k])` on a dict whose key `k` is present: rewrite
the entry for `k` in place. -/
def updKey {α : Type} : List (String × α) → String → (α → α) → List (String × α)
  | [], _, _ => []
  | p :: rest, k, f => (if p.1 = k then (p.1, f p.2) else p) :: updKey rest k f

/-- `generate_ref_id` (line 31): `f"PRG{1000 + count}"`. -/
def generate_ref_id (count : Nat) : String :=
  "PRG" ++ toString (1000 + count)

/-- The linear scan `for u_key, u_info in data["users"].items(): if
u_info["ref_id"] == ref: ...` used throughout the source to resolve a
ref_id to the user owning it (first match in dict order). -/
def findOwner : Users → String → Option (String × User)
  | [], _ => none
  | p :: rest, ref => if p.2.ref_id = ref then some p else findOwner rest ref

/-- `find_referrer_ref_id` (lines 40-45): the `ref_by` of the first user
whose `ref_id` is `current_ref_id`, else `None` — the same linear scan as
`findOwner`, projected to `ref_by`.  The source takes the whole `data`
dict but only reads `data["users"]`. -/
def find_referrer_ref_id (current_ref_id : String) (users : Users) :
    Option String :=
  (findOwner users current_ref_id).map (·.2.ref_by)

/-- One iteration of the `while current_ref_by_id != "ROOT"` loop of
`find_coadmin_for_member` (lines 59-72): either the loop exits with a
result (`done`) or moves to the referrer's own `ref_by` (`going`). -/
inductive WalkStep where
  | done (result : String)
  | going (next : String)
deriving Repr, DecidableEq

/-- The body of the `find_coadmin_for_member` walk at a given current
ref_id: exit with "UNKNOWN" at ROOT or on a broken chain, exit with the
referrer's username if they are a coadmin, otherwise climb. -/
def coadminStep (users : Users) (current : String) : WalkStep :=
  if current = "ROOT" then .done "UNKNOWN"
  else
    match findOwner users current with
    | none => .done "UNKNOWN"
    | some (uname, uinfo) =>
      if uinfo.role = "coadmin" then .done uname else .going uinfo.ref_by

/-- The `while` loop of `find_coadmin_for_member`, run for at most `fuel`
iterations; `none` means the loop is still running (the source has no
bound: it can run forever on a cyclic chain). -/
def coadminWalk (users : Users) : Nat → String → Option String
  | 0, _ => none
  | fuel + 1, current =>
    match coadminStep users current with
    | .done r => some r
    | .going next => coadminWalk users fuel next

/-- `find_coadmin_for_member` (lines 47-73), with explicit fuel for the
unbounded `while` loop. -/
def find_coadmin_for_member (member_username : String) (d : Data)
    (fuel : Nat) : Option String :=
  match lookupD d.users member_username with
  | none => some "UNKNOWN"
  | some u => coadminWalk d.users fuel u.ref_by

/-- The fixed per-level affiliate payout schedule (line 205). -/
def level_payouts : List Int := [20, 20, 20, 25, 30, 35, 40, 60]

/-- `data["users"][key]["affiliate_income"] += amount` (line 218). -/
def creditAffiliate (users : Users) (key : String) (amount : Int) : Users :=
  updKey users key (fun u => { u with affiliate_income := u.affiliate_income + amount })

/-- `data["users"][key]["task_income"] += amount` (line 661). -/
def creditTask (users : Users) (key : String) (amount : Int) : Users :=
  updKey users key (fun u => { u with task_income := u.task_income + amount })

/-- The affiliate income loop of `register_user` (lines 204-223): for each
level in turn, find the user owning `current`, credit that level's payout,
then climb to their referrer; stop when no owner is found or the referrer
chain reaches `None`/ROOT.  The payout list drives the (at most 8)
iterations of `for level in range(8)`. -/
def affiliateLoop (users : Users) : String → List Int → Users
  | _, [] => users
  | current, pay :: rest =>
    match findOwner users current with
    | none => users
    | some (ukey, _) =>
      let users' := creditAffiliate users ukey pay
      match find_referrer_ref_id current users' with
      | none => users'
      | some next =>
        if next = "ROOT" then users' else affiliateLoop users' next rest

/-- The role-determination block of `register_user` (lines 168-186).
Python truthiness: `if explicit_role:` is taken for any value other than
`None` and `""`.  The final `else` branch of the source looks up the
referrer's role but yields `"member"` in every case (both the coadmin
branch and the fall-through), which the match below reproduces. -/
def determineRole (users : Users) (referral_id : String)
    (explicit_role : Option String) : String :=
  if explicit_role.getD "" ≠ "" then explicit_role.getD ""
  else if referral_id = "PRG1001" then "coadmin"
  else
    match findOwner users referral_id with
    | some (_, referrer) => if referrer.role = "coadmin" then "member" else "member"
    | none => "member"

/-- The new user record built at lines 190-199 (`joined` is the
registration date, passed in as `today`). -/
def newUserRecord (d : Data) (name username password referral_id : String)
    (explicit_role : Option String) (today : String) : User :=
  { name := name
    password := password
    ref_id := generate_ref_id d.count
    ref_by := referral_id
    task_income := 0
    affiliate_income := 0
    joined := today
    role := determineRole d.users referral_id explicit_role }

/-- `data["users"]` just after the new user is inserted (line 190):
the fresh record is appended at the end of the dict. -/
def insUsers (d : Data) (name username password referral_id : String)
    (explicit_role : Option String) (today : String) : Users :=
  d.users ++ [(username, newUserRecord d name username password referral_id explicit_role today)]

/-- `register_user` (lines 156-227).  The `data["referrals"][referral_id].append`
at line 201 raises `KeyError` when `referral_id` is absent (only reachable
when `referral_id = "PRG1001"` is missing from the tree); that exception is
modelled as a distinguished error. -/
def register_user (d : Data) (name username password referral_id : String)
    (explicit_role : Option String) (today : String) :
    Except String (Data × String) :=
  if hasKey d.users username then .error "Username already exists."
  else if !hasKey d.referrals referral_id && referral_id != "PRG1001" then
    .error "Invalid referral ID."
  else if referral_id = "ROOT" && username != "admin" then
    .error "Cannot register directly under ROOT."
  else
    let role := determineRole d.users referral_id explicit_role
    let ref_id := generate_ref_id d.count
    let users1 := insUsers d name username password referral_id explicit_role today
    let referrals1 :=
      if hasKey d.referrals ref_id then d.referrals else d.referrals ++ [(ref_id, [])]
    if !hasKey referrals1 referral_id then .error "KeyError: referral_id"
    else
      let referrals2 := updKey referrals1 referral_id (fun cs => cs ++ [ref_id])
      let users2 := if role = "member" then affiliateLoop users1 referral_id level_payouts else users1
      .ok ({ users := users2, referrals := referrals2, count := d.count + 1 }, ref_id)

/-- The data store after a registration attempt (unchanged on error:
`register_user` returns before mutating anything on every error path we
reach in the theorems below). -/
def regResult (d : Data) (name username password referral_id : String)
    (explicit_role : Option String) (today : String) : Data :=
  match register_user d name username password referral_id explicit_role today with
  | .ok (d', _) => d'
  | .error _ => d

/-- Whether an operation succeeded. -/
def isOkE {α : Type} : Except String α → Bool
  | .ok _ => true
  | .error _ => false

/-- A user's `affiliate_income`, read the way the source reads it
(`data["users"].get(username, {}).get('affiliate_income', 0)`). -/
def getAffiliate (users : Users) (w : String) : Int :=
  ((lookupD users w).map (·.affiliate_income)).getD 0

/-- A user's `task_income`, read with the same defaulting. -/
def getTask (users : Users) (w : String) : Int :=
  ((lookupD users w).map (·.task_income)).getD 0

/-- A user's role, if the user exists. -/
def getRole (users : Users) (w : String) : Option String :=
  (lookupD users w).map (·.role)

/-- The usernames the affiliate loop visits (in order) when started at
`current` with `fuel` levels available: the owner of `current`, then the
owner of their `ref_by`, stopping at a missing owner or at ROOT. -/
def ancChain (users : Users) : String → Nat → List String
  | _, 0 => []
  | current, fuel + 1 =>
    match findOwner users current with
    | none => []
    | some (ukey, uinfo) =>
      ukey :: (if uinfo.ref_by = "ROOT" then [] else ancChain users uinfo.ref_by fuel)

/-- Total amount credited to user `w` when the users of `chain` are paid
the amounts of `pays` position by position. -/
def chainCredits (chain : List String) (pays : List Int) (w : String) : Int :=
  match chain, pays with
  | u :: cs, a :: rest => (if u = w then a else 0) + chainCredits cs rest w
  | _, _ => 0

/-! ### Analysis of the `find_coadmin_for_member` walk

`walkTrace` records the value of the loop variable `current_ref_by_id`
after `k` iterations that all took the `going` branch; `parentAt` iterates
the plain `find_referrer_ref_id` parent map. -/

/-- The loop variable of the `find_coadmin_for_member` walk after `k`
non-exiting iterations (`none` once the loop has exited). -/
def walkTrace (users : Users) (start : String) : Nat → Option String
  | 0 => some start
  | k + 1 =>
    match walkTrace users start k with
    | some x =>
      match coadminStep users x with
      | .going y => some y
      | .done _ => none
    | none => none

/-- `k`-fold iterate of the `ref_by` parent map `find_referrer_ref_id`. -/
def parentAt (users : Users) (start : String) : Nat → Option String
  | 0 => some start
  | k + 1 =>
    match parentAt users start k with
    | some x => find_referrer_ref_id x users
    | none => none

/-- The ref_ids owned by the users of the directory, in dict order. -/
def refIds (users : Users) : List String := users.map (·.2.ref_id)

/-- Modelled from the spec's referral-tree invariant "no cycles (a ref_id
never appears as its own descendant)", rendered on the `ref_by` parent
relation: no ref_id is a proper ancestor of itself. -/
def NoUpCycles (users : Users) : Prop :=
  ∀ r : String, ¬ ∃ k : Nat, 0 < k ∧ parentAt users r k = some r

/-- The walk of `find_coadmin_for_member` started at `username` never
exits, for any amount of fuel: the source's `while` loop runs forever. -/
def WalkDiverges (username : String) (d : Data) : Prop :=
  ∀ fuel : Nat, find_coadmin_for_member username d fuel = none

/-- Outcome of the spec's `nearestCoadmin`: either the username of the
first coadmin in the chain, or the "unassigned" sentinel. -/
inductive CoAnswer where
  | found (username : String)
  | unassigned
deriving Repr, DecidableEq

/-- Modelled from the spec: `nearestCoadmin` "walks ref_by pointers
starting from the user's own ref_by, following each one to the user who
owns that ref_id, stopping and returning that user's username the first
time role = coadmin; returns a sentinel `unassigned` if the walk reaches
the ROOT sentinel without finding one, or if the chain is broken (a
ref_by points to a ref_id with no owner)."  Fuel bounds the walk; `none`
means it has not yet finished. -/
def nearestCoadminSpec (users : Users) : Nat → String → Option CoAnswer
  | 0, _ => none
  | fuel + 1, ref =>
    if ref = "ROOT" then some .unassigned
    else
      match findOwner users ref with
      | none => some .unassigned
      | some (uname, u) =>
        if u.role = "coadmin" then some (.found uname)
        else nearestCoadminSpec users fuel u.ref_by

/-- How the source renders the spec's answer: a found coadmin is returned
by username, and the "unassigned" sentinel is the string "UNKNOWN". -/
def renderAnswer : CoAnswer → String
  | .found u => u
  | .unassigned => "UNKNOWN"

/-! ### Proof workflow (`proof_status` store) -/

/-- A proof-submission record (the dict built at lines 406-415). -/
structure ProofEntry where
  task_title : String
  task_payout : Int
  member_username : String
  proof_file : String
  status : String
  submitted_date : String
  coadmin_username : String
  approved_by_admin : Bool
deriving Repr, DecidableEq

/-- `proof_status`: submission key → record. -/
abbrev ProofStatus := List (String × ProofEntry)

/-- A task record (lines 356-362). -/
structure Task where
  title : String
  description : String
  payout : Int
  created_by : String
  created_date : String
deriving Repr, DecidableEq

/-- Rewrite the proof entry at `key` in place. -/
def setProofEntry (ps : ProofStatus) (key : String) (f : ProofEntry → ProofEntry) :
    ProofStatus :=
  updKey ps key f

/-- The duplicate-submission scan of the Tasks menu (lines 374-380): any
existing submission for this member and task title, irrespective of its
status. -/
def proofExistsForTask : ProofStatus → String → String → Bool
  | [], _, _ => false
  | p :: rest, username, title =>
    if p.2.member_username = username ∧ p.2.task_title = title then true
    else proofExistsForTask rest username title

/-- Proof submission (lines 372-418).  The duplicate check blocks the
uploader entirely (no record is created); otherwise a new Pending record
is appended whose `coadmin_username` snapshots `find_coadmin_for_member`
(fuel models that unbounded walk; exhausted fuel means the handler never
returned).  `fname` is the opaque stored-file reference, `now` the
timestamp used in the unique key, `today` the submission date. -/
def submitProof (ps : ProofStatus) (d : Data) (username : String) (t : Task)
    (fname now today : String) (fuel : Nat) :
    Except String (ProofStatus × String) :=
  if proofExistsForTask ps username t.title then .error "AlreadySubmitted"
  else
    match find_coadmin_for_member username d fuel with
    | none => .error "walk did not terminate"
    | some coadmin =>
      let key := username ++ "_" ++ (t.title.replace " " "_") ++ "_" ++ now
      let entry : ProofEntry :=
        { task_title := t.title
          task_payout := t.payout
          member_username := username
          proof_file := fname
          status := "Pending"
          submitted_date := today
          coadmin_username := coadmin
          approved_by_admin := false }
      .ok (ps ++ [(key, entry)], key)

/-- The resulting `proof_status` store of a submission attempt (unchanged
when the attempt failed). -/
def submitResult (ps : ProofStatus) (d : Data) (username : String) (t : Task)
    (fname now today : String) (fuel : Nat) : ProofStatus :=
  match submitProof ps d username t fname now today fuel with
  | .ok (ps', _) => ps'
  | .error _ => ps

/-- The coadmin approve button (lines 654-668), guarded the way the
Coadmin: Approve Proofs page is (lines 582-585): the button exists only
for a submission whose status is Pending and whose `coadmin_username` is
the logged-in coadmin.  On approve the member is credited the snapshotted
`task_payout` and the status becomes "Approved By Coadmin"; a missing
member leaves everything unchanged. -/
def coadminApprove (d : Data) (ps : ProofStatus) (coadmin key : String) :
    Except String (Data × ProofStatus) :=
  match lookupD ps key with
  | none => .error "no such submission"
  | some v =>
    if v.status = "Pending" ∧ v.coadmin_username = coadmin then
      if hasKey d.users v.member_username then
        .ok ({ d with users := creditTask d.users v.member_username v.task_payout },
             setProofEntry ps key (fun e => { e with status := "Approved By Coadmin" }))
      else .error "Member not found in database."
    else .error "InvalidTransition"

/-- The state after a coadmin approval (unchanged on error). -/
def approveResult (d : Data) (ps : ProofStatus) (coadmin key : String) :
    Data × ProofStatus :=
  match coadminApprove d ps coadmin key with
  | .ok r => r
  | .error _ => (d, ps)

/-- The admin confirm button (lines 756-763), guarded the way the Admin:
Manage Proofs page is (lines 682-685 and 757): only a submission with
status "Approved By Coadmin" not yet confirmed gets the button.  It sets
`approved_by_admin` and the final status, and touches nothing else — in
particular it does not read or write the `data` store, so no income
accumulator can change. -/
def adminConfirm (ps : ProofStatus) (key : String) : Except String ProofStatus :=
  match lookupD ps key with
  | none => .error "no such submission"
  | some v =>
    if v.status = "Approved By Coadmin" ∧ v.approved_by_admin = false then
      .ok (setProofEntry ps key
            (fun e => { e with approved_by_admin := true, status := "Approved By Admin" }))
    else .error "InvalidTransition"

/-! ### Withdrawal ledger -/

/-- A withdrawal request record (lines 449-457). -/
structure Withdrawal where
  request_id : String
  username : String
  name : String
  upi : String
  amount : Int
  date : String
  status : String
deriving Repr, DecidableEq

/-- The request record appended at lines 449-457: the id is
`f"WDR{len(withdrawals) + 1}-{timestamp}"`, the amount snapshots the
user's whole balance, the status starts Pending.  The source fills
`name` from the logged-in session's user dict; the model reads the same
user's stored record. -/
def mkWithdrawal (d : Data) (ws : List Withdrawal) (username upi today now : String) :
    Withdrawal :=
  { request_id := "WDR" ++ toString (ws.length + 1) ++ "-" ++ now
    username := username
    name := ((lookupD d.users username).map (·.name)).getD ""
    upi := upi
    amount := getAffiliate d.users username + getTask d.users username
    date := today
    status := "Pending" }

/-- The Withdrawals menu (lines 432-465): with a non-positive balance the
request form is not shown ("You have no balance to withdraw", no state
change); otherwise, given a UPI id, a Pending request snapshotting the
full balance is appended and both accumulators are zeroed. -/
def requestWithdrawal (d : Data) (ws : List Withdrawal) (username upi today now : String) :
    Except String (Data × List Withdrawal) :=
  let total := getAffiliate d.users username + getTask d.users username
  if total ≤ 0 then .error "NoBalance"
  else if upi = "" then .error "Please enter your UPI ID."
  else
    let ws' := ws ++ [mkWithdrawal d ws username upi today now]
    let users' := updKey (updKey d.users username (fun u => { u with affiliate_income := 0 }))
                    username (fun u => { u with task_income := 0 })
    .ok ({ d with users := users' }, ws')

/-- The state after a withdrawal request (unchanged on failure). -/
def wdResult (d : Data) (ws : List Withdrawal) (username upi today now : String) :
    Data × List Withdrawal :=
  match requestWithdrawal d ws username upi today now with
  | .ok r => r
  | .error _ => (d, ws)

/-- The settle loop body (lines 486-489 / 495-501): set the status of the
first request with this id, leave the rest alone. -/
def setWithdrawalStatus : List Withdrawal → String → String → List Withdrawal
  | [], _, _ => []
  | w :: rest, reqId, st =>
    if w.request_id = reqId then { w with status := st } :: rest
    else w :: setWithdrawalStatus rest reqId st

/-- The `[w for w in withdrawals if w["status"] == "Pending"]` filter of
the Manage Withdrawals page (line 471), specialised to one request id:
is there a Pending request with this id? -/
def pendingExists : List Withdrawal → String → Bool
  | [], _ => false
  | w :: rest, reqId =>
    if w.request_id = reqId ∧ w.status = "Pending" then true
    else pendingExists rest reqId

/-- The first request with the given id, as the settle loop finds it. -/
def findByReqId : List Withdrawal → String → Option Withdrawal
  | [], _ => none
  | w :: rest, reqId => if w.request_id = reqId then some w else findByReqId rest reqId

/-- The Manage Withdrawals buttons (lines 471-504), guarded the way the
page is: mark-paid / cancel buttons exist only for requests whose status
is Pending.  The handler rewrites only the withdrawals store; the
commented-out refund (lines 498-500) means `data` is untouched, so
cancelling does not restore the zeroed balance. -/
def settleWithdrawal (d : Data) (ws : List Withdrawal) (reqId newStatus : String) :
    Except String (Data × List Withdrawal) :=
  if pendingExists ws reqId then
    .ok (d, setWithdrawalStatus ws reqId newStatus)
  else .error "InvalidTransition"

/-- The state after a settlement attempt (unchanged on failure). -/
def settleResult (d : Data) (ws : List Withdrawal) (reqId newStatus : String) :
    Data × List Withdrawal :=
  match settleWithdrawal d ws reqId newStatus with
  | .ok r => r
  | .error _ => (d, ws)

/-! ### The directory invariants (spec §3, "Referral Tree" and "User") -/

/-- The direct children recorded for `r` in the referral tree. -/
def childrenOf (referrals : List (String × List String)) (r : String) : List String :=
  (lookupD referrals r).getD []

/-- All ref_ids reachable from `r` in the referral tree in at most `n`
steps (the tree is finite, so depth `|referrals|` sees every node a
well-formed tree can reach). -/
def descWithin (referrals : List (String × List String)) : Nat → String → List String
  | 0, _ => []
  | n + 1, r =>
    childrenOf referrals r ++ ((childrenOf referrals r).map (descWithin referrals n)).flatten

/-- The admin's ref_id (the root of the referral tree). -/
def adminRefId (users : Users) : String :=
  ((users.find? (fun p => p.2.role == "admin")).map (·.2.ref_id)).getD "PRG1001"

/-- How many times `x` occurs as a child anywhere in the referral tree. -/
def occCount (referrals : List (String × List String)) (x : String) : Nat :=
  (referrals.map (fun p => p.2.count x)).sum

/-- Modelled from the spec: the directory invariants of §3 that claim C2
lists — every non-admin user's ref_by resolves to an existing ref_id;
every user's ref_id appears as a key of the referral tree; every
non-admin user's ref_id appears exactly once as a child, namely in its
parent's entry; the tree is rooted at the admin's ref_id; and no ref_id
is its own descendant (no cycles).  Reachability is bounded by the number
of tree entries, which covers every acyclic path. -/
def directoryInv (d : Data) : Bool :=
  d.users.all (fun p => p.2.role == "admin" || (findOwner d.users p.2.ref_by).isSome) &&
  d.users.all (fun p => hasKey d.referrals p.2.ref_id) &&
  d.users.all (fun p =>
    p.2.role == "admin" ||
      ((childrenOf d.referrals p.2.ref_by).count p.2.ref_id == 1 &&
        occCount d.referrals p.2.ref_id == 1)) &&
  d.referrals.all (fun p =>
    p.1 == adminRefId d.users ||
      (descWithin d.referrals d.referrals.length (adminRefId d.users)).contains p.1) &&
  d.referrals.all (fun p => !(descWithin d.referrals d.referrals.length p.1).contains p.1)

/-! ### Concrete states -/

/-- The bootstrap store created at lines 77-94: the admin with ref_id
PRG1001 under ROOT, an empty referral entry for PRG1001, counter 1. -/
def bootstrapData : Data :=
  { users := [("admin",
      { name := "Admin", password := "admin123", ref_id := "PRG1001", ref_by := "ROOT"
        task_income := 0, affiliate_income := 0, joined := "2024-01-01", role := "admin" })]
    referrals := [("PRG1001", [])]
    count := 1 }

/-- A corrupted directory whose `ref_by` chain is cyclic: `alice` and
`bob` name each other's ref_id as referrer, and `carol` hangs below
them.  No user is a coadmin, so the walk never exits. -/
def cyclicData : Data :=
  { users :=
      [("alice",
        { name := "Alice", password := "a", ref_id := "PRG9001", ref_by := "PRG9002"
          task_income := 0, affiliate_income := 0, joined := "2024-01-01", role := "member" }),
       ("bob",
        { name := "Bob", password := "b", ref_id := "PRG9002", ref_by := "PRG9001"
          task_income := 0, affiliate_income := 0, joined := "2024-01-01", role := "member" }),
       ("carol",
        { name := "Carol", password := "c", ref_id := "PRG9003", ref_by := "PRG9001"
          task_income := 0, affiliate_income := 0, joined := "2024-01-01", role := "member" })]
    referrals := [("PRG9001", ["PRG9003"]), ("PRG9002", ["PRG9001"]), ("PRG9003", [])]
    count := 3 }

/-- A well-formed directory used to instantiate the hypothesised
theorems: the admin, a coadmin `cora` (PRG1002) directly under the admin,
and a member `mia` (PRG1003) directly under `cora`. -/
def witnessData : Data :=
  { users :=
      [("admin",
        { name := "Admin", password := "admin123", ref_id := "PRG1001", ref_by := "ROOT"
          task_income := 0, affiliate_income := 0, joined := "2024-01-01", role := "admin" }),
       ("cora",
        { name := "Cora", password := "pw1", ref_id := "PRG1002", ref_by := "PRG1001"
          task_income := 0, affiliate_income := 0, joined := "2024-01-02", role := "coadmin" }),
       ("mia",
        { name := "Mia", password := "pw2", ref_id := "PRG1003", ref_by := "PRG1002"
          task_income := 40, affiliate_income := 60, joined := "2024-01-03", role := "member" })]
    referrals := [("PRG1001", ["PRG1002"]), ("PRG1002", ["PRG1003"]), ("PRG1003", [])]
    count := 3 }

/-- `mia`'s Pending submission for the task "Solve A", payout 100,
assigned to coadmin `cora`. -/
def witnessEntry : ProofEntry :=
  { task_title := "Solve A", task_payout := 100, member_username := "mia"
    proof_file := "proofs/mia_Solve_A_1.jpg", status := "Pending"
    submitted_date := "2024-02-01", coadmin_username := "cora"
    approved_by_admin := false }

/-- A one-entry proof-status store holding `witnessEntry`. -/
def witnessProofs : ProofStatus := [("mia_Solve_A_1", witnessEntry)]

/-- The task belonging to `witnessProofs`. -/
def witnessTask : Task :=
  { title := "Solve A", description := "solve it", payout := 100
    created_by := "cora", created_date := "2024-01-10" }

/-- A one-entry withdrawal ledger holding a Pending request from `mia`. -/
def witnessWithdrawals : List Withdrawal :=
  [{ request_id := "WDR1-20240301", username := "mia", name := "Mia", upi := "mia@upi"
     amount := 100, date := "2024-03-01", status := "Pending" }]

/-! ## Dictionary lemmas -/

theorem lookupD_updKey {α : Type} (l : List (String × α)) (k0 : String) (f : α → α)
    (k : String) :
    lookupD (updKey l k0 f) k = if k = k0 then (lookupD l k).map f else lookupD l k := by
  induction l with
  | nil => simp [lookupD, updKey]
  | cons p rest ih =>
    by_cases h0 : p.1 = k0 <;> by_cases hk : p.1 = k
    · have hkk0 : k = k0 := hk ▸ h0
      simp [lookupD, updKey, h0, hk, hkk0]
    · have hkk0 : k ≠ k0 := fun h => hk (h ▸ h0 : p.1 = k)
      have hk0k : ¬ k0 = k := fun h => hk (h0.trans h)
      simp [lookupD, updKey, h0, hk, hkk0, hk0k, ih]
    · have hkk0 : k ≠ k0 := fun h => h0 (h ▸ hk : p.1 = k0)
      simp [lookupD, updKey, h0, hk, hkk0]
    · simp [lookupD, updKey, h0, hk, ih]

theorem hasKey_append {α : Type} (l1 l2 : List (String × α)) (k : String) :
    hasKey (l1 ++ l2) k = (hasKey l1 k || hasKey l2 k) := by
  induction l1 with
  | nil => simp [hasKey]
  | cons p rest ih =>
    by_cases h : p.1 = k <;> simp [hasKey, h, ih]

theorem lookupD_append_of_not_hasKey {α : Type} (l1 l2 : List (String × α)) (k : String)
    (h : hasKey l1 k = false) :
    lookupD (l1 ++ l2) k = lookupD l2 k := by
  induction l1 with
  | nil => simp [lookupD]
  | cons p rest ih =>
    by_cases hp : p.1 = k
    · simp [hasKey, hp] at h
    · simp [hasKey, hp] at h
      simp [lookupD, hp, ih h]

theorem lookupD_append_left {α : Type} (l1 l2 : List (String × α)) (k : String) (v : α)
    (h : lookupD l1 k = some v) :
    lookupD (l1 ++ l2) k = some v := by
  induction l1 with
  | nil => simp [lookupD] at h
  | cons p rest ih =>
    by_cases hp : p.1 = k
    · simp [lookupD, hp] at h ⊢; exact h
    · simp [lookupD, hp] at h ⊢; exact ih h

theorem hasKey_iff_isSome {α : Type} (l : List (String × α)) (k : String) :
    hasKey l k = (lookupD l k).isSome := by
  induction l with
  | nil => simp [hasKey, lookupD]
  | cons p rest ih =>
    by_cases hp : p.1 = k <;> simp [hasKey, lookupD, hp, ih]

theorem findOwner_updKey (l : Users) (k0 : String) (f : User → User)
    (hf : ∀ u, (f u).ref_id = u.ref_id) (ref : String) :
    findOwner (updKey l k0 f) ref =
      (findOwner l ref).map (fun p => if p.1 = k0 then (p.1, f p.2) else p) := by
  induction l with
  | nil => simp [findOwner, updKey]
  | cons p rest ih =>
    have hid : (if p.1 = k0 then (p.1, f p.2) else p).2.ref_id = p.2.ref_id := by
      by_cases h0 : p.1 = k0 <;> simp [h0, hf]
    by_cases hr : p.2.ref_id = ref
    · simp [findOwner, updKey, hid, hr]
    · simp [findOwner, updKey, hid, hr, ih]

theorem findOwner_mem (l : Users) (ref : String) (p : String × User)
    (h : findOwner l ref = some p) : p ∈ l ∧ p.2.ref_id = ref := by
  induction l with
  | nil => simp [findOwner] at h
  | cons q rest ih =>
    by_cases hq : q.2.ref_id = ref
    · simp [findOwner, hq] at h
      exact ⟨by simp [← h], by rw [← h]; exact hq⟩
    · simp [findOwner, hq] at h
      exact ⟨List.mem_cons_of_mem _ (ih h).1, (ih h).2⟩

theorem findOwner_hasKey (l : Users) (ref : String) (p : String × User)
    (h : findOwner l ref = some p) : hasKey l p.1 = true := by
  induction l with
  | nil => simp [findOwner] at h
  | cons q rest ih =>
    by_cases hq : q.2.ref_id = ref
    · simp [findOwner, hq] at h
      simp [hasKey, ← h]
    · simp [findOwner, hq] at h
      by_cases hk : q.1 = p.1 <;> simp [hasKey, hk, ih h]

/-! ## Affiliate-loop lemmas

Crediting income rewrites only the income fields, so every scan that
reads `ref_id`, `ref_by` or `role` is unaffected; this is what lets the
loop of `register_user` be described by the pure chain `ancChain`. -/

theorem find_referrer_updKey (l : Users) (k0 : String) (f : User → User)
    (hf1 : ∀ u, (f u).ref_id = u.ref_id) (hf2 : ∀ u, (f u).ref_by = u.ref_by)
    (x : String) :
    find_referrer_ref_id x (updKey l k0 f) = find_referrer_ref_id x l := by
  unfold find_referrer_ref_id
  rw [findOwner_updKey l k0 f hf1 x]
  cases findOwner l x with
  | none => rfl
  | some p =>
    by_cases h0 : p.1 = k0 <;> simp [h0, hf2]

theorem ancChain_updKey (l : Users) (k0 : String) (f : User → User)
    (hf1 : ∀ u, (f u).ref_id = u.ref_id) (hf2 : ∀ u, (f u).ref_by = u.ref_by) :
    ∀ (n : Nat) (c : String), ancChain (updKey l k0 f) c n = ancChain l c n := by
  intro n
  induction n with
  | zero => intro c; rfl
  | succ n ih =>
    intro c
    show ancChain (updKey l k0 f) c (n + 1) = ancChain l c (n + 1)
    rw [ancChain, ancChain, findOwner_updKey l k0 f hf1 c]
    cases findOwner l c with
    | none => rfl
    | some p =>
      by_cases h0 : p.1 = k0 <;> simp [h0, hf2, ih]

theorem getAffiliate_credit (l : Users) (k0 : String) (a : Int)
    (hk : hasKey l k0 = true) (w : String) :
    getAffiliate (creditAffiliate l k0 a) w =
      getAffiliate l w + (if w = k0 then a else 0) := by
  unfold getAffiliate creditAffiliate
  rw [lookupD_updKey]
  by_cases hw : w = k0
  · rw [hasKey_iff_isSome] at hk
    cases hv : lookupD l w with
    | none => rw [hw] at hv; rw [hv] at hk; simp at hk
    | some v => simp [hw, hv]
  · simp [hw]

theorem getTask_updKey_pres (l : Users) (k0 : String) (f : User → User)
    (hf : ∀ u, (f u).task_income = u.task_income) (w : String) :
    getTask (updKey l k0 f) w = getTask l w := by
  unfold getTask
  rw [lookupD_updKey]
  by_cases hw : w = k0
  · cases hv : lookupD l w with
    | none => simp [hw, hv]
    | some v => simp [hw, hv, hf]
  · simp [hw]

theorem getAffiliate_updKey_pres (l : Users) (k0 : String) (f : User → User)
    (hf : ∀ u, (f u).affiliate_income = u.affiliate_income) (w : String) :
    getAffiliate (updKey l k0 f) w = getAffiliate l w := by
  unfold getAffiliate
  rw [lookupD_updKey]
  by_cases hw : w = k0
  · cases hv : lookupD l w with
    | none => simp [hw, hv]
    | some v => simp [hw, hv, hf]
  · simp [hw]

theorem getRole_updKey_pres (l : Users) (k0 : String) (f : User → User)
    (hf : ∀ u, (f u).role = u.role) (w : String) :
    getRole (updKey l k0 f) w = getRole l w := by
  unfold getRole
  rw [lookupD_updKey]
  by_cases hw : w = k0
  · cases hv : lookupD l w with
    | none => simp [hw, hv]
    | some v => simp [hw, hv, hf]
  · simp [hw]

theorem affiliateLoop_getAffiliate :
    ∀ (pays : List Int) (users : Users) (current w : String),
      getAffiliate (affiliateLoop users current pays) w =
        getAffiliate users w +
          chainCredits (ancChain users current pays.length) pays w := by
  intro pays
  induction pays with
  | nil => intro users current w; simp [affiliateLoop, ancChain, chainCredits]
  | cons a rest ih =>
    intro users current w
    cases hfo : findOwner users current with
    | none =>
      simp only [affiliateLoop, hfo, List.length_cons, ancChain]
      simp [chainCredits]
    | some p =>
      obtain ⟨k, u⟩ := p
      have hk : hasKey users k = true := findOwner_hasKey users current (k, u) hfo
      have hpar : find_referrer_ref_id current (creditAffiliate users k a) =
          some u.ref_by := by
        unfold creditAffiliate
        rw [find_referrer_updKey users k
          (fun v => { v with affiliate_income := v.affiliate_income + a })
          (fun _ => rfl) (fun _ => rfl) current]
        unfold find_referrer_ref_id
        rw [hfo]
        rfl
      simp only [affiliateLoop, hfo, hpar, List.length_cons, ancChain]
      by_cases hroot : u.ref_by = "ROOT"
      · rw [if_pos hroot, if_pos hroot]
        rw [getAffiliate_credit users k a hk w]
        simp [chainCredits, eq_comm]
      · rw [if_neg hroot, if_neg hroot, ih]
        have hupd : creditAffiliate users k a =
            updKey users k (fun v => { v with affiliate_income := v.affiliate_income + a }) := rfl
        rw [hupd, ancChain_updKey users k
          (fun v => { v with affiliate_income := v.affiliate_income + a })
          (fun _ => rfl) (fun _ => rfl), ← hupd]
        rw [getAffiliate_credit users k a hk w]
        simp only [chainCredits]
        have hcomm : (if k = w then a else 0) = (if w = k then a else 0) := by
          by_cases hwk : w = k <;> simp [hwk, eq_comm]
        rw [hcomm]
        ring

theorem affiliateLoop_getTask :
    ∀ (pays : List Int) (users : Users) (current w : String),
      getTask (affiliateLoop users current pays) w = getTask users w := by
  intro pays
  induction pays with
  | nil => intro users current w; rfl
  | cons a rest ih =>
    intro users current w
    cases hfo : findOwner users current with
    | none => simp only [affiliateLoop, hfo]
    | some p =>
      obtain ⟨k, u⟩ := p
      have hpar : find_referrer_ref_id current (creditAffiliate users k a) =
          some u.ref_by := by
        unfold creditAffiliate
        rw [find_referrer_updKey users k
          (fun v => { v with affiliate_income := v.affiliate_income + a })
          (fun _ => rfl) (fun _ => rfl) current]
        unfold find_referrer_ref_id
        rw [hfo]
        rfl
      simp only [affiliateLoop, hfo, hpar]
      by_cases hroot : u.ref_by = "ROOT"
      · rw [if_pos hroot]
        exact getTask_updKey_pres users k
          (fun v => { v with affiliate_income := v.affiliate_income + a }) (fun _ => rfl) w
      · rw [if_neg hroot, ih]
        exact getTask_updKey_pres users k
          (fun v => { v with affiliate_income := v.affiliate_income + a }) (fun _ => rfl) w

theorem affiliateLoop_getRole :
    ∀ (pays : List Int) (users : Users) (current w : String),
      getRole (affiliateLoop users current pays) w = getRole users w := by
  intro pays
  induction pays with
  | nil => intro users current w; rfl
  | cons a rest ih =>
    intro users current w
    cases hfo : findOwner users current with
    | none => simp only [affiliateLoop, hfo]
    | some p =>
      obtain ⟨k, u⟩ := p
      have hpar : find_referrer_ref_id current (creditAffiliate users k a) =
          some u.ref_by := by
        unfold creditAffiliate
        rw [find_referrer_updKey users k
          (fun v => { v with affiliate_income := v.affiliate_income + a })
          (fun _ => rfl) (fun _ => rfl) current]
        unfold find_referrer_ref_id
        rw [hfo]
        rfl
      simp only [affiliateLoop, hfo, hpar]
      by_cases hroot : u.ref_by = "ROOT"
      · rw [if_pos hroot]
        exact getRole_updKey_pres users k
          (fun v => { v with affiliate_income := v.affiliate_income + a }) (fun _ => rfl) w
      · rw [if_neg hroot, ih]
        exact getRole_updKey_pres users k
          (fun v => { v with affiliate_income := v.affiliate_income + a }) (fun _ => rfl) w

theorem chainCredits_of_not_mem (chain : List String) (pays : List Int) (w : String)
    (h : w ∉ chain) : chainCredits chain pays w = 0 := by
  induction chain generalizing pays with
  | nil => cases pays <;> rfl
  | cons c cs ih =>
    cases pays with
    | nil => rfl
    | cons a rest =>
      have hc : c ≠ w := fun hcw => h (hcw ▸ List.mem_cons_self c cs)
      simp only [chainCredits, if_neg hc]
      rw [ih rest (fun hw => h (List.mem_cons_of_mem c hw))]
      ring

theorem chainCredits_nodup (chain : List String) (hnd : chain.Nodup) :
    ∀ (pays : List Int) (i : Nat) (hi : i < chain.length),
      chainCredits chain pays (chain.get ⟨i, hi⟩) = pays.getD i 0 := by
  induction chain with
  | nil => intro pays i hi; simp at hi
  | cons c cs ih =>
    intro pays i hi
    cases pays with
    | nil =>
      show chainCredits (c :: cs) [] _ = [].getD i 0
      cases i <;> rfl
    | cons a rest =>
      cases i with
      | zero =>
        have hcm : c ∉ cs := (List.nodup_cons.mp hnd).1
        simp only [List.get, chainCredits, if_pos rfl]
        rw [chainCredits_of_not_mem cs rest c hcm]
        simp [List.getD]
      | succ j =>
        have hcm : c ∉ cs := (List.nodup_cons.mp hnd).1
        have hj : j < cs.length := Nat.lt_of_succ_lt_succ hi
        have hne : c ≠ cs.get ⟨j, hj⟩ := fun h => hcm (h ▸ cs.get_mem j hj)
        simp only [List.get, chainCredits, if_neg hne]
        rw [ih (List.nodup_cons.mp hnd).2 rest j hj]
        simp [List.getD]

theorem ancChain_length_le (users : Users) :
    ∀ (n : Nat) (c : String), (ancChain users c n).length ≤ n := by
  intro n
  induction n with
  | zero => intro c; simp [ancChain]
  | succ n ih =>
    intro c
    rw [ancChain]
    cases findOwner users c with
    | none => simp
    | some p =>
      by_cases hroot : p.2.ref_by = "ROOT"
      · simp [hroot]
      · simp only [if_neg hroot, List.length_cons]
        exact Nat.succ_le_succ (ih p.2.ref_by)

theorem getTask_credit (l : Users) (k0 : String) (a : Int)
    (hk : hasKey l k0 = true) (w : String) :
    getTask (creditTask l k0 a) w = getTask l w + (if w = k0 then a else 0) := by
  unfold getTask creditTask
  rw [lookupD_updKey]
  by_cases hw : w = k0
  · rw [hasKey_iff_isSome] at hk
    cases hv : lookupD l w with
    | none => rw [hw] at hv; rw [hv] at hk; simp at hk
    | some v => simp [hw, hv]
  · simp [hw]

theorem hasKey_updKey {α : Type} (l : List (String × α)) (k0 : String) (f : α → α)
    (k : String) : hasKey (updKey l k0 f) k = hasKey l k := by
  induction l with
  | nil => rfl
  | cons p rest ih =>
    unfold updKey
    by_cases h0 : p.1 = k0
    · rw [if_pos h0]
      by_cases hk : p.1 = k <;> simp [hasKey, h0, hk, ih]
    · rw [if_neg h0]
      by_cases hk : p.1 = k <;> simp [hasKey, hk, ih]

theorem getAffiliate_setZero (l : Users) (k0 : String) (hk : hasKey l k0 = true) :
    getAffiliate (updKey l k0 (fun u => { u with affiliate_income := 0 })) k0 = 0 := by
  unfold getAffiliate
  rw [lookupD_updKey]
  rw [hasKey_iff_isSome] at hk
  cases hv : lookupD l k0 with
  | none => rw [hv] at hk; simp at hk
  | some v => simp [hv]

theorem getTask_setZero (l : Users) (k0 : String) (hk : hasKey l k0 = true) :
    getTask (updKey l k0 (fun u => { u with task_income := 0 })) k0 = 0 := by
  unfold getTask
  rw [lookupD_updKey]
  rw [hasKey_iff_isSome] at hk
  cases hv : lookupD l k0 with
  | none => rw [hv] at hk; simp at hk
  | some v => simp [hv]

/-! ## Unfolding `register_user` on the success path -/

theorem register_user_ok (d : Data) (nm un pw rid today : String) (er : Option String)
    (h1 : hasKey d.users un = false) (h2 : hasKey d.referrals rid = true)
    (h3 : rid ≠ "ROOT") :
    register_user d nm un pw rid er today =
      .ok ({ users :=
               if determineRole d.users rid er = "member"
               then affiliateLoop (insUsers d nm un pw rid er today) rid level_payouts
               else insUsers d nm un pw rid er today,
             referrals :=
               updKey (if hasKey d.referrals (generate_ref_id d.count) then d.referrals
                       else d.referrals ++ [(generate_ref_id d.count, [])]) rid
                 (fun cs => cs ++ [generate_ref_id d.count]),
             count := d.count + 1 }, generate_ref_id d.count) := by
  have hkr1 : hasKey (if hasKey d.referrals (generate_ref_id d.count) then d.referrals
      else d.referrals ++ [(generate_ref_id d.count, [])]) rid = true := by
    by_cases hg : hasKey d.referrals (generate_ref_id d.count) = true
    · rw [if_pos hg]; exact h2
    · rw [if_neg hg, hasKey_append, h2]; rfl
  unfold register_user
  rw [h1, h2]
  simp [h3, hkr1]

theorem determineRole_eq (users : Users) (rid : String) (er : Option String) :
    determineRole users rid er =
      match er with
      | some r => if r ≠ "" then r else if rid = "PRG1001" then "coadmin" else "member"
      | none => if rid = "PRG1001" then "coadmin" else "member" := by
  unfold determineRole
  cases er with
  | none =>
    cases hfo : findOwner users rid with
    | none => simp
    | some p =>
      obtain ⟨k, u⟩ := p
      by_cases hc : u.role = "coadmin" <;> simp [hc]
  | some r =>
    cases hfo : findOwner users rid with
    | none =>
      by_cases hr0 : r = "" <;> simp [hr0]
    | some p =>
      obtain ⟨k, u⟩ := p
      by_cases hr0 : r = "" <;> by_cases hc : u.role = "coadmin" <;> simp [hr0, hc]

/-! ## Claim theorems -/

/-- C1: the claim says every newly allocated ref_id is strictly greater
than all previously issued ones, never reused.  The code violates this at
the very first registration: with the bootstrap counter `count = 1`, the
new user receives `generate_ref_id 1 = "PRG1001"`, which is exactly the
admin's bootstrap ref_id, so the directory ends up with two users owning
"PRG1001". -/
theorem C1_refid_reused :
    isOkE (register_user bootstrapData "Xavier" "xavier" "pw" "PRG1001" none "2026-01-01") = true ∧
    (regResult bootstrapData "Xavier" "xavier" "pw" "PRG1001" none "2026-01-01").users.map
        (fun p => p.2.ref_id) = ["PRG1001", "PRG1001"] :=
  ⟨rfl, rfl⟩

/-- C2: the claim says every mutating operation preserves the directory
invariants.  The bootstrap state satisfies them, yet the very first
registration (a valid one, under the admin's referral id) produces a
state that violates them: the new user's ref_id "PRG1001" duplicates the
admin's, and "PRG1001" becomes a child of its own referral-tree entry —
a cycle. -/
theorem C2_invariants_broken :
    directoryInv bootstrapData = true ∧
    isOkE (register_user bootstrapData "Xena" "xena" "pw" "PRG1001" none "2026-01-01") = true ∧
    directoryInv (regResult bootstrapData "Xena" "xena" "pw" "PRG1001" none "2026-01-01") = false :=
  ⟨rfl, rfl, rfl⟩

/-- C4: the claim says the nearestCoadmin walk terminates on every input
state, including a corrupted cyclic directory.  In `cyclicData` the chain
alternates between the ref_ids "PRG9001" and "PRG9002" forever, and the
source's `while` loop has no depth bound and no visited-set, so the walk
started from `carol` never exits, whatever fuel it is given. -/
theorem C4_walk_never_terminates : WalkDiverges "carol" cyclicData := by
  have key : ∀ n : Nat, coadminWalk cyclicData.users n "PRG9001" = none ∧
      coadminWalk cyclicData.users n "PRG9002" = none := by
    intro n
    induction n with
    | zero => exact ⟨rfl, rfl⟩
    | succ n ih =>
      have h1 : coadminStep cyclicData.users "PRG9001" = .going "PRG9002" := by decide
      have h2 : coadminStep cyclicData.users "PRG9002" = .going "PRG9001" := by decide
      exact ⟨by simp [coadminWalk, h1, ih.2], by simp [coadminWalk, h2, ih.1]⟩
  intro fuel
  show find_coadmin_for_member "carol" cyclicData fuel = none
  have hl : lookupD cyclicData.users "carol" = some
      { name := "Carol", password := "c", ref_id := "PRG9003", ref_by := "PRG9001",
        task_income := 0, affiliate_income := 0, joined := "2024-01-01", role := "member" } := rfl
  simp [find_coadmin_for_member, hl, (key fuel).1]

/-- C3: when the determined role is member (and only then), the affiliate
loop credits each user in the ancestor chain of the given referral id —
walking ref_by upward, at most 8 levels, stopping at ROOT or at an
unresolvable ref_id — once per occurrence with that level's payout from
[20,20,20,25,30,35,40,60]; with a duplicate-free chain the user at level
i gets exactly the level-i amount, everyone else's affiliate income is
unchanged, and no task income changes.  The chain is taken on the store
as it is right after the new user is inserted, which is what the source
scans. -/
theorem C3_affiliate_schedule (d : Data) (nm un pw rid today : String) (er : Option String)
    (h1 : hasKey d.users un = false) (h2 : hasKey d.referrals rid = true)
    (h3 : rid ≠ "ROOT") :
    (ancChain (insUsers d nm un pw rid er today) rid level_payouts.length).length ≤ 8 ∧
    (determineRole d.users rid er = "member" →
      ∀ w, getAffiliate (regResult d nm un pw rid er today).users w =
        getAffiliate (insUsers d nm un pw rid er today) w +
          chainCredits (ancChain (insUsers d nm un pw rid er today) rid level_payouts.length)
            level_payouts w) ∧
    (determineRole d.users rid er = "member" →
      (ancChain (insUsers d nm un pw rid er today) rid level_payouts.length).Nodup →
      ∀ (i : Nat)
        (hi : i < (ancChain (insUsers d nm un pw rid er today) rid level_payouts.length).length),
        getAffiliate (regResult d nm un pw rid er today).users
            ((ancChain (insUsers d nm un pw rid er today) rid level_payouts.length).get ⟨i, hi⟩) =
          getAffiliate (insUsers d nm un pw rid er today)
              ((ancChain (insUsers d nm un pw rid er today) rid level_payouts.length).get ⟨i, hi⟩) +
            level_payouts.getD i 0) ∧
    (determineRole d.users rid er ≠ "member" →
      ∀ w, getAffiliate (regResult d nm un pw rid er today).users w =
        getAffiliate (insUsers d nm un pw rid er today) w) ∧
    (∀ w, getTask (regResult d nm un pw rid er today).users w =
      getTask (insUsers d nm un pw rid er today) w) := by
  have hreg := register_user_ok d nm un pw rid today er h1 h2 h3
  have hres : (regResult d nm un pw rid er today).users =
      (if determineRole d.users rid er = "member"
       then affiliateLoop (insUsers d nm un pw rid er today) rid level_payouts
       else insUsers d nm un pw rid er today) := by
    unfold regResult
    rw [hreg]
  refine ⟨ancChain_length_le _ _ _, ?_, ?_, ?_, ?_⟩
  · intro hrole w
    rw [hres, if_pos hrole]
    exact affiliateLoop_getAffiliate level_payouts _ rid w
  · intro hrole hnd i hi
    rw [hres, if_pos hrole,
      affiliateLoop_getAffiliate level_payouts (insUsers d nm un pw rid er today) rid _,
      chainCredits_nodup _ hnd level_payouts i hi]
  · intro hrole w
    rw [hres, if_neg hrole]
  · intro w
    rw [hres]
    by_cases hrole : determineRole d.users rid er = "member"
    · rw [if_pos hrole]
      exact affiliateLoop_getTask level_payouts _ rid w
    · rw [if_neg hrole]

/-- Witness for C3: on a clean directory (admin → coadmin `cora` →
member `mia`), registering a member `nick` under `cora`'s referral id
credits `cora` (level 1) with 20; the ancestor chain is exactly
["cora", "admin"]. -/
theorem C3_affiliate_schedule_witness :
    hasKey witnessData.users "nick" = false ∧
    hasKey witnessData.referrals "PRG1002" = true ∧
    determineRole witnessData.users "PRG1002" none = "member" ∧
    ancChain (insUsers witnessData "Nick" "nick" "pw" "PRG1002" none "2026-01-01") "PRG1002"
      level_payouts.length = ["cora", "admin"] ∧
    getAffiliate (regResult witnessData "Nick" "nick" "pw" "PRG1002" none "2026-01-01").users
        "cora" =
      getAffiliate (insUsers witnessData "Nick" "nick" "pw" "PRG1002" none "2026-01-01") "cora" +
        chainCredits
          (ancChain (insUsers witnessData "Nick" "nick" "pw" "PRG1002" none "2026-01-01")
            "PRG1002" level_payouts.length) level_payouts "cora" ∧
    getAffiliate (regResult witnessData "Nick" "nick" "pw" "PRG1002" none "2026-01-01").users
        "cora" = 20 :=
  ⟨rfl, rfl, rfl, rfl,
   (C3_affiliate_schedule witnessData "Nick" "nick" "pw" "PRG1002" "2026-01-01" none rfl rfl
     (by decide)).2.1 rfl "cora",
   by decide⟩

/-- C5 counterexample: the claim says a supplied explicitRole outside
{coadmin, member} makes the registration fail with InvalidExplicitRole.
`register_user` performs no validation at all: registering with
explicit role "admin" succeeds and creates a second admin-role user. -/
theorem C5_explicit_role_not_validated :
    isOkE (register_user bootstrapData "Yana" "yana" "pw" "PRG1001" (some "admin") "2026-01-01") = true ∧
    getRole (regResult bootstrapData "Yana" "yana" "pw" "PRG1001" (some "admin") "2026-01-01").users
        "yana" = some "admin" :=
  ⟨rfl, rfl⟩

/-- C5 amended: on every successful registration the role is determined
first-match-wins — the supplied explicitRole if it is a non-empty value
(any value whatsoever: `register_user` has no InvalidExplicitRole check,
the admin-caller and {coadmin, member} restrictions live only in the UI
form, which passes explicitRole only for an admin using their own
ref_id), else coadmin when the referral id is the admin's "PRG1001",
else member. -/
theorem C5_role_first_match (d : Data) (nm un pw rid today : String) (er : Option String)
    (h1 : hasKey d.users un = false) (h2 : hasKey d.referrals rid = true)
    (h3 : rid ≠ "ROOT") :
    isOkE (register_user d nm un pw rid er today) = true ∧
    getRole (regResult d nm un pw rid er today).users un =
      some (match er with
            | some r => if r ≠ "" then r else if rid = "PRG1001" then "coadmin" else "member"
            | none => if rid = "PRG1001" then "coadmin" else "member") := by
  have hreg := register_user_ok d nm un pw rid today er h1 h2 h3
  have hres : (regResult d nm un pw rid er today).users =
      (if determineRole d.users rid er = "member"
       then affiliateLoop (insUsers d nm un pw rid er today) rid level_payouts
       else insUsers d nm un pw rid er today) := by
    unfold regResult
    rw [hreg]
  have hu1 : getRole (insUsers d nm un pw rid er today) un =
      some (determineRole d.users rid er) := by
    unfold getRole insUsers
    rw [lookupD_append_of_not_hasKey d.users _ un h1]
    simp [lookupD, newUserRecord]
  constructor
  · unfold isOkE
    rw [hreg]
  · rw [hres]
    by_cases hrole : determineRole d.users rid er = "member"
    · rw [if_pos hrole, affiliateLoop_getRole, hu1, determineRole_eq]
    · rw [if_neg hrole, hu1, determineRole_eq]

/-- Witness for C5: registering `zoe` under the coadmin referral id
"PRG1002" with explicit role "coadmin" succeeds, and the explicit role
wins over the member default. -/
theorem C5_role_first_match_witness :
    hasKey witnessData.users "zoe" = false ∧
    hasKey witnessData.referrals "PRG1002" = true ∧
    isOkE (register_user witnessData "Zoe" "zoe" "pw" "PRG1002" (some "coadmin") "2026-01-01") =
      true ∧
    getRole (regResult witnessData "Zoe" "zoe" "pw" "PRG1002" (some "coadmin") "2026-01-01").users
        "zoe" = some "coadmin" :=
  ⟨rfl, rfl,
   (C5_role_first_match witnessData "Zoe" "zoe" "pw" "PRG1002" "2026-01-01" (some "coadmin")
     rfl rfl (by decide)).1,
   (C5_role_first_match witnessData "Zoe" "zoe" "pw" "PRG1002" "2026-01-01" (some "coadmin")
     rfl rfl (by decide)).2⟩

/-- C7: across the two-stage approval the member's task income rises
exactly once, by exactly the `task_payout` snapshotted at submission
time.  The coadmin's approve on a Pending submission credits the snapshot
and sets status "Approved By Coadmin", changing no other user's task
income and nobody's affiliate income; the admin's confirm then succeeds
and rewrites only the submission record (it takes no user data at all),
setting `approved_by_admin` and the final "Approved By Admin" status. -/
theorem C7_two_stage_income (d : Data) (ps : ProofStatus) (ca key : String) (v : ProofEntry)
    (hv : lookupD ps key = some v)
    (hst : v.status = "Pending")
    (hca : v.coadmin_username = ca)
    (hm : hasKey d.users v.member_username = true)
    (hadm : v.approved_by_admin = false) :
    coadminApprove d ps ca key =
      .ok ({ d with users := creditTask d.users v.member_username v.task_payout },
           setProofEntry ps key (fun e => { e with status := "Approved By Coadmin" })) ∧
    getTask (approveResult d ps ca key).1.users v.member_username =
      getTask d.users v.member_username + v.task_payout ∧
    (∀ w, w ≠ v.member_username →
      getTask (approveResult d ps ca key).1.users w = getTask d.users w) ∧
    (∀ w, getAffiliate (approveResult d ps ca key).1.users w = getAffiliate d.users w) ∧
    lookupD (approveResult d ps ca key).2 key =
      some { v with status := "Approved By Coadmin" } ∧
    (∀ k2, k2 ≠ key → lookupD (approveResult d ps ca key).2 k2 = lookupD ps k2) ∧
    adminConfirm (approveResult d ps ca key).2 key =
      .ok (setProofEntry (approveResult d ps ca key).2 key
            (fun e => { e with approved_by_admin := true, status := "Approved By Admin" })) ∧
    lookupD (setProofEntry (approveResult d ps ca key).2 key
        (fun e => { e with approved_by_admin := true, status := "Approved By Admin" })) key =
      some { v with status := "Approved By Admin", approved_by_admin := true } := by
  have happ : coadminApprove d ps ca key =
      .ok ({ d with users := creditTask d.users v.member_username v.task_payout },
           setProofEntry ps key (fun e => { e with status := "Approved By Coadmin" })) := by
    unfold coadminApprove
    rw [hv]
    dsimp only
    rw [if_pos ⟨hst, hca⟩, if_pos hm]
  have hres : approveResult d ps ca key =
      ({ d with users := creditTask d.users v.member_username v.task_payout },
       setProofEntry ps key (fun e => { e with status := "Approved By Coadmin" })) := by
    unfold approveResult
    rw [happ]
  have hlook : lookupD (approveResult d ps ca key).2 key =
      some { v with status := "Approved By Coadmin" } := by
    rw [hres]
    unfold setProofEntry
    rw [lookupD_updKey, if_pos rfl, hv]
    rfl
  refine ⟨happ, ?_, ?_, ?_, hlook, ?_, ?_, ?_⟩
  · rw [hres]
    rw [getTask_credit d.users v.member_username v.task_payout hm]
    simp
  · intro w hw
    rw [hres]
    rw [getTask_credit d.users v.member_username v.task_payout hm]
    simp [hw]
  · intro w
    rw [hres]
    exact getAffiliate_updKey_pres d.users v.member_username
      (fun u => { u with task_income := u.task_income + v.task_payout }) (fun _ => rfl) w
  · intro k2 hk2
    rw [hres]
    unfold setProofEntry
    rw [lookupD_updKey, if_neg hk2]
  · unfold adminConfirm
    rw [hlook]
    dsimp only
    rw [if_pos ⟨rfl, hadm⟩]
  · unfold setProofEntry
    rw [lookupD_updKey, if_pos rfl, hlook]
    rfl

/-- Witness for C7: approving `mia`'s Pending 100-payout submission
raises her task income from 40 to 140; the admin confirm then succeeds
and leaves the final record Approved By Admin. -/
theorem C7_two_stage_income_witness :
    lookupD witnessProofs "mia_Solve_A_1" = some witnessEntry ∧
    witnessEntry.status = "Pending" ∧
    hasKey witnessData.users "mia" = true ∧
    getTask (approveResult witnessData witnessProofs "cora" "mia_Solve_A_1").1.users "mia" =
      getTask witnessData.users "mia" + 100 ∧
    lookupD (approveResult witnessData witnessProofs "cora" "mia_Solve_A_1").2 "mia_Solve_A_1" =
      some { witnessEntry with status := "Approved By Coadmin" } :=
  ⟨rfl, rfl, rfl,
   (C7_two_stage_income witnessData witnessProofs "cora" "mia_Solve_A_1" witnessEntry
     rfl rfl rfl rfl rfl).2.1,
   (C7_two_stage_income witnessData witnessProofs "cora" "mia_Solve_A_1" witnessEntry
     rfl rfl rfl rfl rfl).2.2.2.2.1⟩

/-- C8: a withdrawal request with positive balance succeeds, appends a
Pending request whose amount is the pre-request income sum, zeroes both
of the user's accumulators (leaving everyone else untouched), so an
immediately repeated request fails with NoBalance; and in general any
request against a non-positive balance fails with NoBalance without
touching any state. -/
theorem C8_withdrawal (d : Data) (ws : List Withdrawal) (un upi today now : String)
    (h1 : 0 < getAffiliate d.users un + getTask d.users un)
    (h2 : upi ≠ "") :
    requestWithdrawal d ws un upi today now = .ok (wdResult d ws un upi today now) ∧
    (wdResult d ws un upi today now).2 = ws ++ [mkWithdrawal d ws un upi today now] ∧
    (mkWithdrawal d ws un upi today now).amount =
      getAffiliate d.users un + getTask d.users un ∧
    (mkWithdrawal d ws un upi today now).status = "Pending" ∧
    getAffiliate (wdResult d ws un upi today now).1.users un = 0 ∧
    getTask (wdResult d ws un upi today now).1.users un = 0 ∧
    (∀ w, w ≠ un →
      getAffiliate (wdResult d ws un upi today now).1.users w = getAffiliate d.users w ∧
      getTask (wdResult d ws un upi today now).1.users w = getTask d.users w) ∧
    (∀ upi2 today2 now2,
      requestWithdrawal (wdResult d ws un upi today now).1 (wdResult d ws un upi today now).2
        un upi2 today2 now2 = .error "NoBalance") ∧
    (∀ (d0 : Data) (ws0 : List Withdrawal) (u0 upi0 t0 n0 : String),
      getAffiliate d0.users u0 + getTask d0.users u0 ≤ 0 →
      requestWithdrawal d0 ws0 u0 upi0 t0 n0 = .error "NoBalance") := by
  have hk : hasKey d.users un = true := by
    cases hke : hasKey d.users un with
    | true => rfl
    | false =>
      exfalso
      rw [hasKey_iff_isSome] at hke
      have hnone : lookupD d.users un = none := by
        cases hl : lookupD d.users un with
        | none => rfl
        | some u => rw [hl] at hke; simp at hke
      rw [getAffiliate, getTask, hnone] at h1
      simp at h1
  have hok : requestWithdrawal d ws un upi today now =
      .ok ({ d with users :=
               (updKey (updKey d.users un (fun u => { u with affiliate_income := 0 }))
                  un (fun u => { u with task_income := 0 })) },
            ws ++ [mkWithdrawal d ws un upi today now]) := by
    unfold requestWithdrawal
    rw [if_neg (not_le.mpr h1), if_neg h2]
  have hres : wdResult d ws un upi today now =
      ({ d with users :=
           (updKey (updKey d.users un (fun u => { u with affiliate_income := 0 }))
              un (fun u => { u with task_income := 0 })) },
        ws ++ [mkWithdrawal d ws un upi today now]) := by
    unfold wdResult
    rw [hok]
  have hzaff : getAffiliate (wdResult d ws un upi today now).1.users un = 0 := by
    rw [hres]
    have hpres := getAffiliate_updKey_pres
      (updKey d.users un (fun u => { u with affiliate_income := 0 })) un
      (fun u => { u with task_income := 0 }) (fun _ => rfl) un
    exact hpres.trans (getAffiliate_setZero d.users un hk)
  have hztask : getTask (wdResult d ws un upi today now).1.users un = 0 := by
    rw [hres]
    exact getTask_setZero _ un (by rw [hasKey_updKey]; exact hk)
  refine ⟨by rw [hok, hres], by rw [hres], rfl, rfl, hzaff, hztask, ?_, ?_, ?_⟩
  · intro w hw
    rw [hres]
    constructor
    · have hpres := getAffiliate_updKey_pres
        (updKey d.users un (fun u => { u with affiliate_income := 0 })) un
        (fun u => { u with task_income := 0 }) (fun _ => rfl) w
      rw [hpres]
      unfold getAffiliate
      rw [lookupD_updKey, if_neg hw]
    · unfold getTask
      rw [lookupD_updKey, if_neg hw, lookupD_updKey, if_neg hw]
  · intro upi2 today2 now2
    unfold requestWithdrawal
    rw [if_pos (by rw [hzaff, hztask]; decide)]
  · intro d0 ws0 u0 upi0 t0 n0 h0
    unfold requestWithdrawal
    rw [if_pos h0]

/-- Witness for C8: `mia` holds 60 affiliate + 40 task income; her
withdrawal request snapshots amount 100, zeroes both accumulators, and a
second request immediately fails with NoBalance. -/
theorem C8_withdrawal_witness :
    0 < getAffiliate witnessData.users "mia" + getTask witnessData.users "mia" ∧
    (mkWithdrawal witnessData [] "mia" "mia@upi" "2026-03-01" "20260301").amount = 100 ∧
    getAffiliate (wdResult witnessData [] "mia" "mia@upi" "2026-03-01" "20260301").1.users
        "mia" = 0 ∧
    getTask (wdResult witnessData [] "mia" "mia@upi" "2026-03-01" "20260301").1.users "mia" = 0 ∧
    requestWithdrawal (wdResult witnessData [] "mia" "mia@upi" "2026-03-01" "20260301").1
      (wdResult witnessData [] "mia" "mia@upi" "2026-03-01" "20260301").2
      "mia" "mia@upi" "2026-03-02" "20260302" = .error "NoBalance" :=
  ⟨by decide, by decide,
   (C8_withdrawal witnessData [] "mia" "mia@upi" "2026-03-01" "20260301" (by decide)
     (by decide)).2.2.2.2.1,
   (C8_withdrawal witnessData [] "mia" "mia@upi" "2026-03-01" "20260301" (by decide)
     (by decide)).2.2.2.2.2.1,
   (C8_withdrawal witnessData [] "mia" "mia@upi" "2026-03-01" "20260301" (by decide)
     (by decide)).2.2.2.2.2.2.2.1 "mia@upi" "2026-03-02" "20260302"⟩

theorem proofExistsForTask_of_mem (ps : ProofStatus) (un title k : String)
    (v : ProofEntry) (hmem : (k, v) ∈ ps) (h1 : v.member_username = un)
    (h2 : v.task_title = title) : proofExistsForTask ps un title = true := by
  induction ps with
  | nil => simp at hmem
  | cons p rest ih =>
    by_cases hp : p.2.member_username = un ∧ p.2.task_title = title
    · simp [proofExistsForTask, hp]
    · rcases List.mem_cons.mp hmem with heq | hrest
      · exact absurd ⟨by rw [← heq]; exact h1, by rw [← heq]; exact h2⟩ hp
      · simp [proofExistsForTask, hp]
        exact ih hrest

/-- C9: a proof submission fails with AlreadySubmitted as soon as any
prior submission exists for the same member and task title — whatever
its status (Pending, Approved By Coadmin, Approved By Admin or Denied By
Coadmin) — and the proof-status store is left unchanged (no record is
created). -/
theorem C9_already_submitted (ps : ProofStatus) (d : Data) (un : String) (t : Task)
    (fname now today : String) (fuel : Nat) (k : String) (v : ProofEntry)
    (hmem : (k, v) ∈ ps) (h1 : v.member_username = un) (h2 : v.task_title = t.title) :
    submitProof ps d un t fname now today fuel = .error "AlreadySubmitted" ∧
    submitResult ps d un t fname now today fuel = ps := by
  have hex : proofExistsForTask ps un t.title = true :=
    proofExistsForTask_of_mem ps un t.title k v hmem h1 h2
  have herr : submitProof ps d un t fname now today fuel = .error "AlreadySubmitted" := by
    unfold submitProof
    rw [hex]
    rfl
  exact ⟨herr, by unfold submitResult; rw [herr]⟩

/-- Witness for C9: `mia` already has a submission for "Solve A" (its
status happens to be Pending), so submitting again fails with
AlreadySubmitted and the store is unchanged. -/
theorem C9_already_submitted_witness :
    ("mia_Solve_A_1", witnessEntry) ∈ witnessProofs ∧
    witnessEntry.member_username = "mia" ∧
    witnessEntry.task_title = witnessTask.title ∧
    submitProof witnessProofs witnessData "mia" witnessTask "proofs/f2.jpg" "20260401"
      "2026-04-01" 4 = .error "AlreadySubmitted" ∧
    submitResult witnessProofs witnessData "mia" witnessTask "proofs/f2.jpg" "20260401"
      "2026-04-01" 4 = witnessProofs :=
  ⟨List.mem_cons_self _ _, rfl, rfl,
   (C9_already_submitted witnessProofs witnessData "mia" witnessTask "proofs/f2.jpg" "20260401"
     "2026-04-01" 4 "mia_Solve_A_1" witnessEntry (List.mem_cons_self _ _) rfl rfl).1,
   (C9_already_submitted witnessProofs witnessData "mia" witnessTask "proofs/f2.jpg" "20260401"
     "2026-04-01" 4 "mia_Solve_A_1" witnessEntry (List.mem_cons_self _ _) rfl rfl).2⟩

theorem pendingExists_of_find (ws : List Withdrawal) (reqId : String) (w0 : Withdrawal)
    (hfind : findByReqId ws reqId = some w0) (hpend : w0.status = "Pending") :
    pendingExists ws reqId = true := by
  induction ws with
  | nil => simp [findByReqId] at hfind
  | cons w rest ih =>
    by_cases hw : w.request_id = reqId
    · simp [findByReqId, hw] at hfind
      have hw0 : w0.request_id = reqId := hfind ▸ hw
      simp [pendingExists, hfind, hw0, hpend]
    · simp [findByReqId, hw] at hfind
      by_cases hp : w.request_id = reqId ∧ w.status = "Pending"
      · exact absurd hp.1 hw
      · simp [pendingExists, hp]
        exact ih hfind

theorem findByReqId_setStatus (ws : List Withdrawal) (reqId st : String) (w0 : Withdrawal)
    (hfind : findByReqId ws reqId = some w0) :
    findByReqId (setWithdrawalStatus ws reqId st) reqId = some { w0 with status := st } := by
  induction ws with
  | nil => simp [findByReqId] at hfind
  | cons w rest ih =>
    by_cases hw : w.request_id = reqId
    · simp [findByReqId, hw] at hfind
      simp [setWithdrawalStatus, findByReqId, hw, ← hfind]
    · simp [findByReqId, hw] at hfind
      simp [setWithdrawalStatus, findByReqId, hw]
      exact ih hfind

theorem mem_setStatus_of_ne (ws : List Withdrawal) (reqId st : String) (w' : Withdrawal)
    (hmem : w' ∈ ws) (hne : w'.request_id ≠ reqId) :
    w' ∈ setWithdrawalStatus ws reqId st := by
  induction ws with
  | nil => simp at hmem
  | cons w rest ih =>
    rcases List.mem_cons.mp hmem with heq | hrest
    · by_cases hw : w.request_id = reqId
      · exact absurd (heq ▸ hw) hne
      · rw [heq]
        simp [setWithdrawalStatus, hw]
    · by_cases hw : w.request_id = reqId
      · simp [setWithdrawalStatus, hw]
        right
        exact hrest
      · simp [setWithdrawalStatus, hw]
        right
        exact ih hrest

theorem pendingExists_false (ws : List Withdrawal) (reqId : String)
    (h : ∀ w ∈ ws, ¬(w.request_id = reqId ∧ w.status = "Pending")) :
    pendingExists ws reqId = false := by
  induction ws with
  | nil => rfl
  | cons w rest ih =>
    have hw := h w (List.mem_cons_self _ _)
    simp [pendingExists, hw]
    exact ih (fun w' hm => h w' (List.mem_cons_of_mem _ hm))

/-- C10: settling a withdrawal request succeeds exactly while a Pending
request with that id exists: the first matching request's status is set
to the given outcome, all other requests survive untouched, the user
data — in particular every task and affiliate income — is returned
verbatim (the refund on cancel is commented out in the source), and with
no Pending match the settle fails with InvalidTransition. -/
theorem C10_settle (d : Data) (ws : List Withdrawal) (reqId st : String) (w0 : Withdrawal)
    (hfind : findByReqId ws reqId = some w0) (hpend : w0.status = "Pending") :
    settleWithdrawal d ws reqId st = .ok (d, setWithdrawalStatus ws reqId st) ∧
    (settleResult d ws reqId st).1 = d ∧
    (∀ u, getAffiliate (settleResult d ws reqId st).1.users u = getAffiliate d.users u ∧
          getTask (settleResult d ws reqId st).1.users u = getTask d.users u) ∧
    findByReqId (settleResult d ws reqId st).2 reqId = some { w0 with status := st } ∧
    (∀ w' ∈ ws, w'.request_id ≠ reqId → w' ∈ (settleResult d ws reqId st).2) ∧
    (∀ (d2 : Data) (ws2 : List Withdrawal) (reqId2 st2 : String),
      (∀ w ∈ ws2, ¬(w.request_id = reqId2 ∧ w.status = "Pending")) →
      settleWithdrawal d2 ws2 reqId2 st2 = .error "InvalidTransition") := by
  have hex : pendingExists ws reqId = true := pendingExists_of_find ws reqId w0 hfind hpend
  have hok : settleWithdrawal d ws reqId st = .ok (d, setWithdrawalStatus ws reqId st) := by
    unfold settleWithdrawal
    rw [hex]
    rfl
  have hres : settleResult d ws reqId st = (d, setWithdrawalStatus ws reqId st) := by
    unfold settleResult
    rw [hok]
  refine ⟨hok, by rw [hres], ?_, ?_, ?_, ?_⟩
  · intro u
    rw [hres]
    exact ⟨rfl, rfl⟩
  · rw [hres]
    exact findByReqId_setStatus ws reqId st w0 hfind
  · intro w' hmem hne
    rw [hres]
    exact mem_setStatus_of_ne ws reqId st w' hmem hne
  · intro d2 ws2 reqId2 st2 h
    unfold settleWithdrawal
    rw [pendingExists_false ws2 reqId2 h]
    rfl

/-- Witness for C10: cancelling `mia`'s Pending request marks it
Cancelled while her zeroed-at-request-time balance stays untouched —
her stored incomes before and after the cancel are identical. -/
theorem C10_settle_witness :
    findByReqId witnessWithdrawals "WDR1-20240301" =
      some { request_id := "WDR1-20240301", username := "mia", name := "Mia", upi := "mia@upi",
             amount := 100, date := "2024-03-01", status := "Pending" } ∧
    (settleResult witnessData witnessWithdrawals "WDR1-20240301" "Cancelled").1 =
      witnessData ∧
    getAffiliate (settleResult witnessData witnessWithdrawals "WDR1-20240301"
      "Cancelled").1.users "mia" = getAffiliate witnessData.users "mia" ∧
    findByReqId (settleResult witnessData witnessWithdrawals "WDR1-20240301" "Cancelled").2
        "WDR1-20240301" =
      some { request_id := "WDR1-20240301", username := "mia", name := "Mia", upi := "mia@upi",
             amount := 100, date := "2024-03-01", status := "Cancelled" } :=
  ⟨rfl,
   (C10_settle witnessData witnessWithdrawals "WDR1-20240301" "Cancelled"
     { request_id := "WDR1-20240301", username := "mia", name := "Mia", upi := "mia@upi",
       amount := 100, date := "2024-03-01", status := "Pending" } rfl rfl).2.1,
   ((C10_settle witnessData witnessWithdrawals "WDR1-20240301" "Cancelled"
     { request_id := "WDR1-20240301", username := "mia", name := "Mia", upi := "mia@upi",
       amount := 100, date := "2024-03-01", status := "Pending" } rfl rfl).2.2.1 "mia").1,
   (C10_settle witnessData witnessWithdrawals "WDR1-20240301" "Cancelled"
     { request_id := "WDR1-20240301", username := "mia", name := "Mia", upi := "mia@upi",
       amount := 100, date := "2024-03-01", status := "Pending" } rfl rfl).2.2.2.1⟩

/-! ## Termination analysis of the coadmin walk

`walkTrace us c k` is the loop variable after `k` non-exiting
iterations.  Under the no-cycles invariant the loop variable can never
survive `|users| + 1` iterations: each surviving step sits on an owned
ref_id, the visited ref_ids are pairwise distinct (a repeat would make a
ref_id its own proper ancestor), and there are only `|users|` owned
ref_ids — a pigeonhole argument. -/

theorem walkTrace_succ (us : Users) (c : String) (k : Nat) :
    walkTrace us c (k + 1) =
      match walkTrace us c k with
      | some x =>
        match coadminStep us x with
        | .going y => some y
        | .done _ => none
      | none => none := rfl

theorem parentAt_succ (us : Users) (r : String) (k : Nat) :
    parentAt us r (k + 1) =
      match parentAt us r k with
      | some x => find_referrer_ref_id x us
      | none => none := rfl

theorem walkTrace_going (us : Users) (c c' : String)
    (hst : coadminStep us c = .going c') :
    ∀ k, walkTrace us c (k + 1) = walkTrace us c' k := by
  intro k
  induction k with
  | zero => simp [walkTrace_succ, walkTrace, hst]
  | succ k ih => rw [walkTrace_succ, ih, ← walkTrace_succ]

theorem walkTrace_done (us : Users) (c r : String)
    (hst : coadminStep us c = .done r) :
    ∀ k, walkTrace us c (k + 1) = none := by
  intro k
  induction k with
  | zero => simp [walkTrace_succ, walkTrace, hst]
  | succ k ih => rw [walkTrace_succ, ih]

theorem coadminWalk_none_iff (us : Users) :
    ∀ (n : Nat) (c : String),
      coadminWalk us n c = none ↔ (walkTrace us c n).isSome = true := by
  intro n
  induction n with
  | zero => intro c; simp [coadminWalk, walkTrace]
  | succ n ih =>
    intro c
    cases hst : coadminStep us c with
    | done r =>
      rw [coadminWalk]
      simp only [hst]
      rw [walkTrace_done us c r hst n]
      simp
    | going c' =>
      rw [coadminWalk]
      simp only [hst]
      rw [walkTrace_going us c c' hst n]
      exact ih c'

theorem walkTrace_isSome_mono (us : Users) (c : String) (n : Nat)
    (h : (walkTrace us c (n + 1)).isSome = true) :
    (walkTrace us c n).isSome = true := by
  cases hn : walkTrace us c n with
  | some x => rfl
  | none => rw [walkTrace_succ, hn] at h; simp at h

theorem walkTrace_isSome_of_le (us : Users) (c : String) :
    ∀ (n k : Nat), k ≤ n → (walkTrace us c n).isSome = true →
      (walkTrace us c k).isSome = true := by
  intro n
  induction n with
  | zero =>
    intro k hk h
    rw [Nat.le_zero.mp hk]
    exact h
  | succ n ih =>
    intro k hk h
    rcases Nat.lt_or_ge k (n + 1) with hlt | hge
    · exact ih k (Nat.lt_succ_iff.mp hlt) (walkTrace_isSome_mono us c n h)
    · rw [Nat.le_antisymm hk hge]
      exact h

theorem walkTrace_step (us : Users) (c : String) (k : Nat) (x y : String)
    (hx : walkTrace us c k = some x) (hy : walkTrace us c (k + 1) = some y) :
    coadminStep us x = .going y := by
  rw [walkTrace_succ, hx] at hy
  dsimp only at hy
  cases hst : coadminStep us x with
  | done r => rw [hst] at hy; simp at hy
  | going z => rw [hst] at hy; simp at hy; rw [hy]

theorem going_parent (us : Users) (x y : String)
    (hst : coadminStep us x = .going y) :
    find_referrer_ref_id x us = some y ∧ x ∈ refIds us := by
  unfold coadminStep at hst
  by_cases hroot : x = "ROOT"
  · rw [if_pos hroot] at hst; simp at hst
  · rw [if_neg hroot] at hst
    cases hfo : findOwner us x with
    | none => rw [hfo] at hst; simp at hst
    | some p =>
      obtain ⟨k, u⟩ := p
      rw [hfo] at hst
      dsimp only at hst
      by_cases hcoad : u.role = "coadmin"
      · rw [if_pos hcoad] at hst; simp at hst
      · rw [if_neg hcoad] at hst
        have hby : u.ref_by = y := by
          cases hst
          rfl
        constructor
        · unfold find_referrer_ref_id
          rw [hfo]
          simp [hby]
        · have hmem := findOwner_mem us x (k, u) hfo
          unfold refIds
          exact List.mem_map.mpr ⟨(k, u), hmem.1, hmem.2⟩

theorem walkTrace_parentAt (us : Users) (c : String) :
    ∀ (m i : Nat) (x y : String), walkTrace us c i = some x →
      walkTrace us c (i + m) = some y → parentAt us x m = some y := by
  intro m
  induction m with
  | zero =>
    intro i x y hx hy
    rw [Nat.add_zero, hx] at hy
    cases hy
    rfl
  | succ m ih =>
    intro i x y hx hy
    rw [show i + (m + 1) = (i + m) + 1 from rfl] at hy
    have hsome : (walkTrace us c (i + m)).isSome = true :=
      walkTrace_isSome_mono us c (i + m) (by rw [hy]; rfl)
    obtain ⟨z, hz⟩ := Option.isSome_iff_exists.mp hsome
    have hst := walkTrace_step us c (i + m) z y hz hy
    have hpz := ih i x z hx hz
    rw [parentAt_succ, hpz]
    exact (going_parent us z y hst).1

theorem walkTrace_exhausts (us : Users) (hnc : NoUpCycles us) (c : String) :
    walkTrace us c (us.length + 1) = none := by
  cases hw : walkTrace us c (us.length + 1) with
  | none => rfl
  | some y =>
    exfalso
    have hsome : ∀ k, k ≤ us.length + 1 → (walkTrace us c k).isSome = true := by
      intro k hk
      exact walkTrace_isSome_of_le us c (us.length + 1) k hk (by rw [hw]; rfl)
    have hmem : ∀ k, k < us.length + 1 → ((walkTrace us c k).getD "") ∈ refIds us := by
      intro k hk
      obtain ⟨x, hx⟩ := Option.isSome_iff_exists.mp (hsome k (Nat.le_of_lt hk))
      obtain ⟨z, hz⟩ := Option.isSome_iff_exists.mp (hsome (k + 1) (Nat.succ_le_of_lt hk))
      have hst := walkTrace_step us c k x z hx hz
      have hxm := (going_parent us x z hst).2
      rw [hx]
      simpa using hxm
    have hcard : (refIds us).toFinset.card < (Finset.range (us.length + 1)).card := by
      have h1 : (refIds us).toFinset.card ≤ (refIds us).length := (refIds us).toFinset_card_le
      have h2 : (refIds us).length = us.length := by simp [refIds]
      rw [Finset.card_range]
      omega
    have hmaps : ∀ k ∈ Finset.range (us.length + 1),
        ((walkTrace us c k).getD "") ∈ (refIds us).toFinset := by
      intro k hk
      rw [List.mem_toFinset]
      exact hmem k (Finset.mem_range.mp hk)
    obtain ⟨i, hi, j, hj, hne, heq⟩ :=
      Finset.exists_ne_map_eq_of_card_lt_of_maps_to hcard hmaps
    have main : ∀ i j : Nat, i < j → j < us.length + 1 →
        (walkTrace us c i).getD "" = (walkTrace us c j).getD "" → False := by
      intro i j hij hjlt hEq
      obtain ⟨x, hx⟩ := Option.isSome_iff_exists.mp (hsome i (by omega))
      obtain ⟨z, hz⟩ := Option.isSome_iff_exists.mp (hsome j (by omega))
      have hxz : x = z := by
        rw [hx, hz] at hEq
        simpa using hEq
      have hpar : parentAt us x (j - i) = some z := by
        apply walkTrace_parentAt us c (j - i) i x z hx
        rw [show i + (j - i) = j from by omega]
        exact hz
      rw [← hxz] at hpar
      exact hnc x ⟨j - i, by omega, hpar⟩
    rcases Nat.lt_or_ge i j with hij | hij
    · exact main i j hij (Finset.mem_range.mp hj) heq
    · have hji : j < i := Nat.lt_of_le_of_ne hij (fun h => hne h.symm)
      exact main j i hji (Finset.mem_range.mp hi) heq.symm

theorem coadminWalk_terminates (us : Users) (hnc : NoUpCycles us) (c : String) :
    ∃ r, coadminWalk us (us.length + 1) c = some r := by
  have hnone := walkTrace_exhausts us hnc c
  cases hcw : coadminWalk us (us.length + 1) c with
  | some r => exact ⟨r, rfl⟩
  | none =>
    have hs := (coadminWalk_none_iff us (us.length + 1) c).mp hcw
    rw [hnone] at hs
    simp at hs

theorem walk_spec_render (us : Users) :
    ∀ (n : Nat) (c : String),
      coadminWalk us n c = (nearestCoadminSpec us n c).map renderAnswer := by
  intro n
  induction n with
  | zero => intro c; rfl
  | succ n ih =>
    intro c
    rw [coadminWalk, nearestCoadminSpec]
    unfold coadminStep
    by_cases hroot : c = "ROOT"
    · rw [if_pos hroot, if_pos hroot]
      rfl
    · rw [if_neg hroot, if_neg hroot]
      cases hfo : findOwner us c with
      | none => rfl
      | some p =>
        obtain ⟨k, u⟩ := p
        dsimp only
        by_cases hc : u.role = "coadmin"
        · rw [if_pos hc, if_pos hc]
          rfl
        · rw [if_neg hc, if_neg hc]
          exact ih u.ref_by

/-- C6: on any directory whose ref_by relation has no cycle (which every
state satisfying the data-model invariants does), the nearestCoadmin
walk started from an existing user terminates — fuel `|users| + 1` is
always enough — and the source's `find_coadmin_for_member` computes
exactly the spec's `nearestCoadmin` walk from the user's own ref_by,
with the spec's "unassigned" sentinel rendered as the source's literal
"UNKNOWN": the first coadmin's username when one exists in the chain,
the sentinel when the walk reaches ROOT or a ref_id with no owner. -/
theorem C6_nearest_coadmin (d : Data) (u : String) (uinfo : User)
    (hnc : NoUpCycles d.users) (hu : lookupD d.users u = some uinfo) :
    (nearestCoadminSpec d.users (d.users.length + 1) uinfo.ref_by).isSome = true ∧
    find_coadmin_for_member u d (d.users.length + 1) =
      (nearestCoadminSpec d.users (d.users.length + 1) uinfo.ref_by).map renderAnswer := by
  obtain ⟨r, hr⟩ := coadminWalk_terminates d.users hnc uinfo.ref_by
  have hspec := walk_spec_render d.users (d.users.length + 1) uinfo.ref_by
  constructor
  · cases hs : nearestCoadminSpec d.users (d.users.length + 1) uinfo.ref_by with
    | none =>
      rw [hs] at hspec
      simp at hspec
      rw [hspec] at hr
      simp at hr
    | some a => rfl
  · unfold find_coadmin_for_member
    rw [hu]
    exact hspec

/-! ### A decidable sufficient condition for `NoUpCycles`, used to
instantiate C6 on a concrete directory: if every user's parent chain
dies out within some bound, no ref_id can be its own ancestor. -/

theorem parentAt_add (us : Users) (r : String) :
    ∀ (a b : Nat), parentAt us r (a + b) =
      (parentAt us r a).bind (fun x => parentAt us x b) := by
  intro a b
  induction b with
  | zero =>
    rw [Nat.add_zero]
    cases parentAt us r a <;> rfl
  | succ b ih =>
    rw [show a + (b + 1) = (a + b) + 1 from rfl, parentAt_succ, ih]
    cases hpa : parentAt us r a with
    | none => rfl
    | some x =>
      rw [Option.some_bind, Option.some_bind, parentAt_succ]

theorem parentAt_none_mono (us : Users) (r : String) (n : Nat)
    (hn : parentAt us r n = none) (m : Nat) : parentAt us r (n + m) = none := by
  rw [parentAt_add, hn]
  rfl

theorem parentAt_cycle_pump (us : Users) (r : String) (k : Nat)
    (hk : parentAt us r k = some r) : ∀ m, parentAt us r (m * k) = some r := by
  intro m
  induction m with
  | zero => rw [Nat.zero_mul]; rfl
  | succ m ih =>
    rw [Nat.succ_mul, parentAt_add, ih, Option.some_bind]
    exact hk

theorem noCycle_of_dies (us : Users) (r : String) (n : Nat)
    (hn : parentAt us r n = none) :
    ¬ ∃ k : Nat, 0 < k ∧ parentAt us r k = some r := by
  rintro ⟨k, hkpos, hcyc⟩
  have hpump := parentAt_cycle_pump us r k hcyc n
  have hge : n ≤ n * k := Nat.le_mul_of_pos_right n hkpos
  have hnone : parentAt us r (n * k) = none := by
    rw [show n * k = n + (n * k - n) from by omega]
    exact parentAt_none_mono us r n hn (n * k - n)
  rw [hnone] at hpump
  simp at hpump

theorem noUpCycles_of_check (us : Users) (N : Nat)
    (h : ∀ p ∈ us, parentAt us p.2.ref_id N = none) : NoUpCycles us := by
  intro r
  cases hfo : findOwner us r with
  | none =>
    apply noCycle_of_dies us r 1
    rw [parentAt_succ]
    show (match parentAt us r 0 with
          | some x => find_referrer_ref_id x us
          | none => none) = none
    rw [show parentAt us r 0 = some r from rfl]
    unfold find_referrer_ref_id
    dsimp only
    rw [hfo]
    rfl
  | some p =>
    obtain ⟨k, u⟩ := p
    have hmem := findOwner_mem us r (k, u) hfo
    have hdies := h (k, u) hmem.1
    rw [hmem.2] at hdies
    exact noCycle_of_dies us r N hdies

/-- Witness for C6: in the clean three-user directory, the walk from
member `mia` (ref_by "PRG1002") terminates within `|users| + 1 = 4`
steps and finds the coadmin `cora`, matching the spec walk. -/
theorem C6_nearest_coadmin_witness :
    NoUpCycles witnessData.users ∧
    (nearestCoadminSpec witnessData.users 4 "PRG1002").isSome = true ∧
    find_coadmin_for_member "mia" witnessData 4 =
      (nearestCoadminSpec witnessData.users 4 "PRG1002").map renderAnswer ∧
    find_coadmin_for_member "mia" witnessData 4 = some "cora" :=
  ⟨noUpCycles_of_check witnessData.users 4 (by decide),
   (C6_nearest_coadmin witnessData "mia"
     { name := "Mia", password := "pw2", ref_id := "PRG1003", ref_by := "PRG1002",
       task_income := 40, affiliate_income := 60, joined := "2024-01-03", role := "member" }
     (noUpCycles_of_check witnessData.users 4 (by decide)) rfl).1,
   (C6_nearest_coadmin witnessData "mia"
     { name := "Mia", password := "pw2", ref_id := "PRG1003", ref_by := "PRG1002",
       task_income := 40, affiliate_income := 60, joined := "2024-01-03", role := "member" }
     (noUpCycles_of_check witnessData.users 4 (by decide)) rfl).2,
   rfl⟩

end PRGPath
